import Mathlib

/-!
Verification of the consensus/backtest core of `binance-consensus-trader`.

The definitions below are a shallow embedding of `consensus.py` and
`backtest.py`: Python floats become `ℚ`, Python's insertion-ordered
dictionaries become association lists, and the grouping loop of
`ConsensusEngine.calculate_consensus` becomes a left fold that appends new
symbol buckets at the end (first-seen order), exactly as `defaultdict`
does.
-/

set_option linter.unusedVariables false

namespace BinanceConsensus

/-- `Trader` dataclass from `scraper.py`. -/
structure Trader where
  encrypted_uid : String
  nick_name : String
  rank : ℤ
  roi : ℚ
  win_rate : ℚ
  pnl : ℚ
  following_count : ℤ
  trade_period_days : ℤ
deriving DecidableEq, Repr

/-- `Position` dataclass from `scraper.py`. -/
structure Position where
  symbol : String
  side : String
  entry_price : ℚ
  mark_price : ℚ
  pnl : ℚ
  roe : ℚ
  leverage : ℚ
  update_time : ℤ
deriving DecidableEq, Repr

/-- `SymbolConsensus` dataclass from `consensus.py`. -/
structure SymbolConsensus where
  symbol : String
  long_count : ℕ
  short_count : ℕ
  total_count : ℕ
  long_percent : ℚ
  short_percent : ℚ
  avg_leverage_long : ℚ
  avg_leverage_short : ℚ
  total_long_pnl : ℚ
  total_short_pnl : ℚ
  signal : String
deriving DecidableEq, Repr

/-- The per-symbol accumulator `symbol_data[symbol]` built by
`ConsensusEngine.calculate_consensus` (lists `longs`, `shorts`, `long_pnl`,
`short_pnl`, `long_leverage`, `short_leverage`). -/
structure SymbolData where
  longs : List String
  shorts : List String
  long_pnl : List ℚ
  short_pnl : List ℚ
  long_leverage : List ℚ
  short_leverage : List ℚ
deriving DecidableEq, Repr

/-- The value a fresh `defaultdict` entry starts from. -/
def emptySymbolData : SymbolData := ⟨[], [], [], [], [], []⟩

/-- Body of the grouping loop in `calculate_consensus`: a position whose
`side` is the exact string `"LONG"` is appended to the long lists, any
other side string goes to the short lists. -/
def addToData (trader_uid : String) (pos : Position) (d : SymbolData) : SymbolData :=
  if pos.side = "LONG" then
    { d with longs := d.longs ++ [trader_uid],
             long_pnl := d.long_pnl ++ [pos.pnl],
             long_leverage := d.long_leverage ++ [pos.leverage] }
  else
    { d with shorts := d.shorts ++ [trader_uid],
             short_pnl := d.short_pnl ++ [pos.pnl],
             short_leverage := d.short_leverage ++ [pos.leverage] }

/-- The guard `if tracked_symbols and symbol not in tracked_symbols:
continue` from `calculate_consensus`.  Python truthiness makes both `None`
and the empty list skip nothing. -/
def skipSymbol (tracked_symbols : Option (List String)) (symbol : String) : Bool :=
  match tracked_symbols with
  | none => false
  | some l => !l.isEmpty && !(l.contains symbol)

/-- The nested iteration `for trader_uid, trader_positions in
positions.items(): for pos in trader_positions:` flattened into one list of
`(trader_uid, position)` pairs in iteration order. -/
def flatPositions (positions : List (String × List Position)) : List (String × Position) :=
  positions.flatMap fun tp => tp.2.map fun pos => (tp.1, pos)

/-- Update of an insertion-ordered dictionary: apply `f` to the entry at
key `k`, creating the entry (at the end, as Python dicts do) from
`emptySymbolData` when the key is new. -/
def updateAssoc (k : String) (f : SymbolData → SymbolData) :
    List (String × SymbolData) → List (String × SymbolData)
  | [] => [(k, f emptySymbolData)]
  | (k', d) :: rest =>
      if k' = k then (k', f d) :: rest else (k', d) :: updateAssoc k f rest

/-- One step of the grouping loop: skip a filtered-out symbol, otherwise
update its bucket. -/
def groupStep (tracked_symbols : Option (List String))
    (acc : List (String × SymbolData)) (p : String × Position) :
    List (String × SymbolData) :=
  if skipSymbol tracked_symbols p.2.symbol then acc
  else updateAssoc p.2.symbol (addToData p.1 p.2) acc

/-- The grouping phase of `calculate_consensus`, folding the flattened
position list into the `symbol_data` dictionary. -/
def groupFlat (tracked_symbols : Option (List String)) (l : List (String × Position)) :
    List (String × SymbolData) :=
  l.foldl (groupStep tracked_symbols) []

/-- The `symbol_data` dictionary built by `calculate_consensus`. -/
def groupPositions (tracked_symbols : Option (List String))
    (positions : List (String × List Position)) : List (String × SymbolData) :=
  groupFlat tracked_symbols (flatPositions positions)

/-- `ConsensusEngine._get_signal`: ordered threshold checks, first match
wins. -/
def get_signal (min_consensus : ℚ) (long_percent short_percent : ℚ) : String :=
  if long_percent ≥ 70 then "STRONG_BUY"
  else if long_percent ≥ min_consensus then "BUY"
  else if short_percent ≥ 70 then "STRONG_SELL"
  else if short_percent ≥ min_consensus then "SELL"
  else "NEUTRAL"

/-- The per-symbol body of the second loop of `calculate_consensus`:
counts, percentages, average leverage (0 for an empty side), summed PnL
and the classified signal; a symbol with `total == 0` is skipped
(`continue`), modelled by `none`. -/
def mkConsensus (min_consensus : ℚ) (symbol : String) (data : SymbolData) :
    Option SymbolConsensus :=
  let long_count := data.longs.length
  let short_count := data.shorts.length
  let total := long_count + short_count
  if total = 0 then none
  else
    let long_percent : ℚ := ((long_count : ℚ) / (total : ℚ)) * 100
    let short_percent : ℚ := ((short_count : ℚ) / (total : ℚ)) * 100
    let avg_leverage_long : ℚ :=
      if data.long_leverage.isEmpty then 0
      else data.long_leverage.sum / (data.long_leverage.length : ℚ)
    let avg_leverage_short : ℚ :=
      if data.short_leverage.isEmpty then 0
      else data.short_leverage.sum / (data.short_leverage.length : ℚ)
    some
      { symbol := symbol
        long_count := long_count
        short_count := short_count
        total_count := total
        long_percent := long_percent
        short_percent := short_percent
        avg_leverage_long := avg_leverage_long
        avg_leverage_short := avg_leverage_short
        total_long_pnl := data.long_pnl.sum
        total_short_pnl := data.short_pnl.sum
        signal := get_signal min_consensus long_percent short_percent }

/-- One insertion step of the stable descending sort modelling
`consensus_list.sort(key=lambda x: x.total_count, reverse=True)`
(Python's sort is stable, and `reverse=True` keeps ties in list order). -/
def insertByTotalDesc (c : SymbolConsensus) :
    List SymbolConsensus → List SymbolConsensus
  | [] => [c]
  | d :: rest =>
      if d.total_count ≤ c.total_count then c :: d :: rest
      else d :: insertByTotalDesc c rest

/-- Stable insertion sort by `total_count` descending. -/
def sortByTotalDesc : List SymbolConsensus → List SymbolConsensus
  | [] => []
  | c :: rest => insertByTotalDesc c (sortByTotalDesc rest)

/-- `ConsensusEngine.calculate_consensus`.  The `traders` argument is
accepted and ignored exactly as in the source. -/
def calculate_consensus (min_consensus : ℚ) (traders : List Trader)
    (positions : List (String × List Position))
    (tracked_symbols : Option (List String)) : List SymbolConsensus :=
  sortByTotalDesc
    ((groupPositions tracked_symbols positions).filterMap
      fun sd => mkConsensus min_consensus sd.1 sd.2)

/-! ### Backtest data model (`backtest.py`, `test_data.py`) -/

/-- `Trade` dataclass from `backtest.py` (timestamps become `ℤ`). -/
structure Trade where
  symbol : String
  side : String
  entry_price : ℚ
  exit_price : ℚ
  entry_time : ℤ
  exit_time : ℤ
  pnl : ℚ
  pnl_percent : ℚ
  signal : String
deriving DecidableEq, Repr

/-- `BacktestResult` dataclass from `backtest.py`. -/
structure BacktestResult where
  total_trades : ℕ
  winning_trades : ℕ
  losing_trades : ℕ
  win_rate : ℚ
  total_pnl : ℚ
  avg_profit : ℚ
  avg_loss : ℚ
  max_drawdown : ℚ
  trades : List Trade
deriving DecidableEq, Repr

/-- `MockTrader` dataclass from `test_data.py`. -/
structure MockTrader where
  encrypted_uid : String
  nick_name : String
  rank : ℤ
  roi : ℚ
  win_rate : ℚ
deriving DecidableEq, Repr

/-- `MockPosition` dataclass from `test_data.py`. -/
structure MockPosition where
  symbol : String
  side : String
  entry_price : ℚ
  exit_price : ℚ
  entry_time : ℤ
  exit_time : ℤ
  pnl : ℚ
deriving DecidableEq, Repr

/-- `TestScenario` dataclass from `test_data.py`; the `positions`
dictionary becomes an association list. -/
structure TestScenario where
  name : String
  description : String
  date : ℤ
  traders : List MockTrader
  positions : List (String × List MockPosition)
  expected_consensus : List (String × ℚ)
deriving DecidableEq, Repr

/-- `scenario.positions.get(mock_trader.encrypted_uid, [])`. -/
def lookupPositions (positions : List (String × List MockPosition)) (uid : String) :
    List MockPosition :=
  match positions.find? fun p => p.1 == uid with
  | some p => p.2
  | none => []

/-- Conversion of one `MockPosition` into a `Position` in
`Backtester.run_scenario` (exit price becomes the mark price, `roe = 0`,
`leverage = 1`, `update_time = 0`). -/
def convertMockPosition (mp : MockPosition) : Position :=
  { symbol := mp.symbol, side := mp.side, entry_price := mp.entry_price,
    mark_price := mp.exit_price, pnl := mp.pnl, roe := 0, leverage := 1,
    update_time := 0 }

/-- Conversion of one `MockTrader` into a `Trader` in
`Backtester.run_scenario`. -/
def convertTrader (mt : MockTrader) : Trader :=
  { encrypted_uid := mt.encrypted_uid, nick_name := mt.nick_name,
    rank := mt.rank, roi := mt.roi, win_rate := mt.win_rate, pnl := 0,
    following_count := 0, trade_period_days := 30 }

/-- The conversion loop of `run_scenario`: builds the `positions`
dictionary, skipping traders with an empty converted position list
(`if trader_positions:`). -/
def convertPositions (scen : TestScenario) : List (String × List Position) :=
  scen.traders.foldl
    (fun acc mt =>
      let trader_positions :=
        (lookupPositions scen.positions mt.encrypted_uid).map convertMockPosition
      if trader_positions.isEmpty then acc
      else acc ++ [(mt.encrypted_uid, trader_positions)])
    []

/-- The inner scan of the trade loop of `run_scenario`: all positions
recorded for `symbol`, regardless of side, in iteration order. -/
def symbolPositions (positions : List (String × List Position)) (symbol : String) :
    List Position :=
  (flatPositions positions).filterMap
    fun p => if p.2.symbol = symbol then some p.2 else none

/-- The body of the trade loop of `run_scenario` for one consensus record:
average entry/exit over all of the symbol's positions, direction from the
signal family, one `Trade` for an actionable signal and none otherwise
(also none when no position matches, `if not symbol_positions: continue`). -/
def mkTrade (positions : List (String × List Position)) (date : ℤ)
    (cons : SymbolConsensus) : Option Trade :=
  let symbol_positions := symbolPositions positions cons.symbol
  if symbol_positions.isEmpty then none
  else
    let avg_entry : ℚ :=
      (symbol_positions.map Position.entry_price).sum / (symbol_positions.length : ℚ)
    let avg_exit : ℚ :=
      (symbol_positions.map Position.mark_price).sum / (symbol_positions.length : ℚ)
    if cons.signal = "STRONG_BUY" ∨ cons.signal = "BUY" then
      some { symbol := cons.symbol, side := "LONG", entry_price := avg_entry,
             exit_price := avg_exit, entry_time := date, exit_time := date,
             pnl := avg_exit - avg_entry,
             pnl_percent := ((avg_exit - avg_entry) / avg_entry) * 100,
             signal := cons.signal }
    else if cons.signal = "STRONG_SELL" ∨ cons.signal = "SELL" then
      some { symbol := cons.symbol, side := "SHORT", entry_price := avg_entry,
             exit_price := avg_exit, entry_time := date, exit_time := date,
             pnl := avg_entry - avg_exit,
             pnl_percent := ((avg_entry - avg_exit) / avg_entry) * 100,
             signal := cons.signal }
    else none

/-- `Backtester.run_scenario` (console output dropped): convert the
scenario, run the consensus engine with no allowlist, then emit trades
from the consensus list in order. -/
def run_scenario (min_consensus : ℚ) (scen : TestScenario) : List Trade :=
  let positions := convertPositions scen
  let consensus_list :=
    calculate_consensus min_consensus (scen.traders.map convertTrader) positions none
  consensus_list.filterMap (mkTrade positions scen.date)

/-- `Backtester._calculate_metrics`. -/
def calculate_metrics (trades : List Trade) : BacktestResult :=
  if trades.isEmpty then ⟨0, 0, 0, 0, 0, 0, 0, 0, []⟩
  else
    let winning := trades.filter fun t => decide (0 < t.pnl)
    let losing := trades.filter fun t => decide (t.pnl ≤ 0)
    let total_pnl := (trades.map Trade.pnl).sum
    let avg_profit : ℚ :=
      if winning.isEmpty then 0
      else (winning.map Trade.pnl).sum / (winning.length : ℚ)
    let avg_loss : ℚ :=
      if losing.isEmpty then 0
      else (losing.map Trade.pnl).sum / (losing.length : ℚ)
    let max_dd : ℚ :=
      (trades.foldl
        (fun (acc : ℚ × ℚ) t =>
          if 0 < t.pnl then (acc.1, acc.2 + t.pnl)
          else (if acc.1 < |t.pnl| then |t.pnl| else acc.1, acc.2))
        (0, 0)).1
    { total_trades := trades.length
      winning_trades := winning.length
      losing_trades := losing.length
      win_rate :=
        if trades.isEmpty then 0
        else ((winning.length : ℚ) / (trades.length : ℚ)) * 100
      total_pnl := total_pnl
      avg_profit := avg_profit
      avg_loss := avg_loss
      max_drawdown := max_dd
      trades := trades }

/-! ### Spec-side quantities -/

/-- The quantity §4.5 of the spec calls `max_drawdown`: the largest
absolute PnL magnitude among trades with `pnl ≤ 0`, or `0` when there is
no such trade. -/
def largestLossMagnitude (trades : List Trade) : ℚ :=
  ((trades.filter fun t => decide (t.pnl ≤ 0)).map fun t => |t.pnl|).foldl max 0

/-- "Actionable" signal in the sense of the spec glossary: any signal
other than `NEUTRAL`, i.e. one of the four trade-inducing strings. -/
def actionable (s : String) : Prop :=
  s = "STRONG_BUY" ∨ s = "BUY" ∨ s = "STRONG_SELL" ∨ s = "SELL"

/-- Arithmetic mean of a list of rationals (`sum / length`). -/
def avgList (l : List ℚ) : ℚ := l.sum / (l.length : ℚ)

/-- A concrete trade carrying a prescribed PnL, used by witnesses. -/
def tradeOfPnl (x : ℚ) : Trade :=
  { symbol := "BTCUSDT", side := "LONG", entry_price := 100,
    exit_price := 100 + x, entry_time := 0, exit_time := 0, pnl := x,
    pnl_percent := x, signal := "BUY" }

/-- The `(trader_uid, position)` pairs that survive the allowlist guard. -/
def keptOf (tracked_symbols : Option (List String)) (l : List (String × Position)) :
    List (String × Position) :=
  l.filter fun p => !skipSymbol tracked_symbols p.2.symbol

/-- First occurrences of a list of symbols, in order of first appearance
(the key order of an insertion-ordered dictionary). -/
def firstSeen : List String → List String
  | [] => []
  | s :: rest => s :: (firstSeen rest).filter fun t => decide (t ≠ s)

/-- The bucket the grouping loop builds for `symbol`, described directly
as filters over the flattened kept positions: uids/PnLs/leverages of this
symbol's positions whose side is exactly `"LONG"`, and of those whose side
is anything else. -/
def specBucket (symbol : String) (kept : List (String × Position)) : SymbolData :=
  let mine := kept.filter fun p => decide (p.2.symbol = symbol)
  let longsL := mine.filter fun p => decide (p.2.side = "LONG")
  let shortsL := mine.filter fun p => decide (¬ p.2.side = "LONG")
  { longs := longsL.map Prod.fst
    shorts := shortsL.map Prod.fst
    long_pnl := longsL.map fun p => p.2.pnl
    short_pnl := shortsL.map fun p => p.2.pnl
    long_leverage := longsL.map fun p => p.2.leverage
    short_leverage := shortsL.map fun p => p.2.leverage }

/-- The `symbol_data` dictionary a prefix of the flattened position list
produces: one bucket per first-seen kept symbol. -/
def assocFor (tracked_symbols : Option (List String))
    (pre : List (String × Position)) : List (String × SymbolData) :=
  (firstSeen ((keptOf tracked_symbols pre).map fun p => p.2.symbol)).map
    fun s => (s, specBucket s (keptOf tracked_symbols pre))

/-- Each trader's position list restricted to symbols in `allow`
(spec-side construction for the amended allowlist claim). -/
def restrictPositions (allow : List String) (positions : List (String × List Position)) :
    List (String × List Position) :=
  positions.map fun tp => (tp.1, tp.2.filter fun pos => allow.contains pos.symbol)

/-- The trade §4.4 of the spec says a BUY-family signal emits: entry/exit
are arithmetic means across all of the symbol's positions regardless of
side, side LONG, `pnl = avg_exit − avg_entry`,
`pnl_percent = pnl / avg_entry × 100`. -/
def specLongTrade (sp : List Position) (date : ℤ) (sym sig : String) : Trade :=
  { symbol := sym, side := "LONG",
    entry_price := avgList (sp.map Position.entry_price),
    exit_price := avgList (sp.map Position.mark_price),
    entry_time := date, exit_time := date,
    pnl := avgList (sp.map Position.mark_price) - avgList (sp.map Position.entry_price),
    pnl_percent := ((avgList (sp.map Position.mark_price)
        - avgList (sp.map Position.entry_price))
      / avgList (sp.map Position.entry_price)) * 100,
    signal := sig }

/-- The trade §4.4 of the spec says a SELL-family signal emits: side
SHORT, `pnl = avg_entry − avg_exit`, `pnl_percent = pnl / avg_entry × 100`. -/
def specShortTrade (sp : List Position) (date : ℤ) (sym sig : String) : Trade :=
  { symbol := sym, side := "SHORT",
    entry_price := avgList (sp.map Position.entry_price),
    exit_price := avgList (sp.map Position.mark_price),
    entry_time := date, exit_time := date,
    pnl := avgList (sp.map Position.entry_price) - avgList (sp.map Position.mark_price),
    pnl_percent := ((avgList (sp.map Position.entry_price)
        - avgList (sp.map Position.mark_price))
      / avgList (sp.map Position.entry_price)) * 100,
    signal := sig }

/-! ### Concrete inputs used by witnesses and counterexamples -/

/-- Shorthand position constructor for concrete witness inputs. -/
def wPosition (sym sd : String) (en ex pn lv : ℚ) : Position :=
  { symbol := sym, side := sd, entry_price := en, mark_price := ex,
    pnl := pn, roe := 0, leverage := lv, update_time := 0 }

/-- A small two-trader snapshot: BTC has one LONG and one SHORT, ETH has a
single position with the misspelled side `"long"`. -/
def wPositions : List (String × List Position) :=
  [("u1", [wPosition "BTCUSDT" "LONG" 100 110 5 2,
           wPosition "ETHUSDT" "long" 10 9 1 3]),
   ("u2", [wPosition "BTCUSDT" "SHORT" 102 110 (-3) 4])]

/-- The BTC consensus record `calculate_consensus 60 [] wPositions none`
produces. -/
def cBTC : SymbolConsensus :=
  { symbol := "BTCUSDT", long_count := 1, short_count := 1, total_count := 2,
    long_percent := 50, short_percent := 50, avg_leverage_long := 2,
    avg_leverage_short := 4, total_long_pnl := 5, total_short_pnl := -3,
    signal := "NEUTRAL" }

/-- The ETH consensus record `calculate_consensus 60 [] wPositions none`
produces: its `"long"`-sided position lands on the short side. -/
def cETH : SymbolConsensus :=
  { symbol := "ETHUSDT", long_count := 0, short_count := 1, total_count := 1,
    long_percent := 0, short_percent := 100, avg_leverage_long := 0,
    avg_leverage_short := 3, total_long_pnl := 0, total_short_pnl := 1,
    signal := "STRONG_SELL" }

/-- One-position snapshot for the C5 counterexample. -/
def cexPositions : List (String × List Position) :=
  [("u1", [wPosition "BTCUSDT" "LONG" 100 110 5 2])]

/-- A minimal backtest scenario: one trader, one LONG BTC position. -/
def wScen : TestScenario :=
  { name := "w", description := "w", date := 0,
    traders := [{ encrypted_uid := "t1", nick_name := "T1", rank := 1,
                  roi := 0, win_rate := 0 }],
    positions := [("t1", [{ symbol := "BTCUSDT", side := "LONG",
                            entry_price := 100, exit_price := 110,
                            entry_time := 0, exit_time := 0, pnl := 10 }])],
    expected_consensus := [] }

/-- The consensus record `run_scenario 60 wScen` trades on. -/
def cW : SymbolConsensus :=
  { symbol := "BTCUSDT", long_count := 1, short_count := 0, total_count := 1,
    long_percent := 100, short_percent := 0, avg_leverage_long := 1,
    avg_leverage_short := 0, total_long_pnl := 10, total_short_pnl := 0,
    signal := "STRONG_BUY" }

/-! ### Lemmas about `_calculate_metrics` -/

theorem ite_lt_eq_max (a b : ℚ) : (if a < b then b else a) = max a b := by
  rcases le_or_lt b a with h | h
  · rw [if_neg (not_lt.mpr h), max_eq_left h]
  · rw [if_pos h, max_eq_right h.le]

theorem maxdd_foldl (l : List Trade) : ∀ a p : ℚ,
    (l.foldl
      (fun (acc : ℚ × ℚ) t =>
        if 0 < t.pnl then (acc.1, acc.2 + t.pnl)
        else (if acc.1 < |t.pnl| then |t.pnl| else acc.1, acc.2))
      (a, p)).1
    = ((l.filter fun t => decide (t.pnl ≤ 0)).map fun t => |t.pnl|).foldl max a := by
  induction l with
  | nil => intro a p; rfl
  | cons t l ih =>
    intro a p
    by_cases h : 0 < t.pnl
    · have hf : (decide (t.pnl ≤ 0)) = false := decide_eq_false (not_le.mpr h)
      simp only [List.foldl_cons, List.filter_cons, hf, if_pos h, Bool.false_eq_true,
        if_false]
      exact ih a (p + t.pnl)
    · have hf : (decide (t.pnl ≤ 0)) = true := decide_eq_true (not_lt.mp h)
      simp only [List.foldl_cons, List.filter_cons, hf, if_neg h, if_true,
        List.map_cons]
      rw [ite_lt_eq_max]
      exact ih (max a |t.pnl|) p

/-! ### Lemmas about the grouping phase -/

theorem mem_firstSeen {t : String} : ∀ {l : List String}, t ∈ firstSeen l ↔ t ∈ l := by
  intro l
  induction l with
  | nil => simp [firstSeen]
  | cons s rest ih =>
    by_cases hts : t = s
    · subst hts; simp [firstSeen]
    · simp [firstSeen, List.mem_filter, hts, ih]

theorem nodup_firstSeen : ∀ l : List String, (firstSeen l).Nodup := by
  intro l
  induction l with
  | nil => simp [firstSeen]
  | cons s rest ih =>
    simp only [firstSeen, List.nodup_cons]
    refine ⟨fun hmem => ?_, ih.filter _⟩
    have := (List.mem_filter.mp hmem).2
    simp at this

theorem firstSeen_append_singleton (l : List String) (s : String) :
    firstSeen (l ++ [s]) = if s ∈ l then firstSeen l else firstSeen l ++ [s] := by
  induction l with
  | nil => simp [firstSeen]
  | cons a l ih =>
    simp only [List.cons_append, firstSeen, List.append_eq]
    rw [ih]
    by_cases hsl : s ∈ l
    · rw [if_pos hsl, if_pos (List.mem_cons.mpr (Or.inr hsl))]
    · rw [if_neg hsl]
      by_cases hsa : s = a
      · subst hsa
        rw [if_pos (List.mem_cons.mpr (Or.inl rfl)), List.filter_append]
        simp
      · rw [if_neg (by simp [hsa, hsl]), List.filter_append]
        simp [hsa]

theorem specBucket_not_mem {s : String} {kept : List (String × Position)}
    (h : ∀ p ∈ kept, p.2.symbol ≠ s) : specBucket s kept = emptySymbolData := by
  have hnil : kept.filter (fun p => decide (p.2.symbol = s)) = [] :=
    List.filter_eq_nil_iff.mpr (by intro p hp; simpa using h p hp)
  simp [specBucket, hnil, emptySymbolData]

theorem specBucket_append_one (s : String) (kept : List (String × Position))
    (q : String × Position) :
    specBucket s (kept ++ [q]) =
      if q.2.symbol = s then addToData q.1 q.2 (specBucket s kept)
      else specBucket s kept := by
  by_cases hq : q.2.symbol = s
  · rw [if_pos hq]
    by_cases hside : q.2.side = "LONG"
    · simp [specBucket, addToData, List.filter_append, hq, hside]
    · simp [specBucket, addToData, List.filter_append, hq, hside]
  · rw [if_neg hq]
    simp [specBucket, List.filter_append, hq]

theorem updateAssoc_map (k : String) (f : SymbolData → SymbolData) :
    ∀ (syms : List String) (B : String → SymbolData),
      syms.Nodup → (k ∉ syms → B k = emptySymbolData) →
      updateAssoc k f (syms.map fun s => (s, B s)) =
        (if k ∈ syms then syms else syms ++ [k]).map
          fun s => (s, if s = k then f (B s) else B s) := by
  intro syms
  induction syms with
  | nil =>
    intro B _ hB
    simp [updateAssoc, hB (by simp)]
  | cons a syms ih =>
    intro B hnd hB
    simp only [List.map_cons, updateAssoc]
    by_cases hak : a = k
    · subst hak
      rw [if_pos rfl, if_pos (List.mem_cons.mpr (Or.inl rfl)), List.map_cons,
        if_pos rfl]
      congr 1
      refine (List.map_congr_left ?_).symm
      intro s hs
      have hsa : ¬ s = a := fun h => (List.nodup_cons.mp hnd).1 (h ▸ hs)
      rw [if_neg hsa]
    · rw [if_neg hak]
      have hka : ¬ k = a := fun h => hak h.symm
      rw [ih B (List.nodup_cons.mp hnd).2
        (fun hk => hB (by simp [hka, hk]))]
      by_cases hk : k ∈ syms
      · rw [if_pos hk, if_pos (List.mem_cons.mpr (Or.inr hk)), List.map_cons,
          if_neg hak]
      · rw [if_neg hk, if_neg (by simp [hka, hk]), List.cons_append,
          List.map_cons, if_neg hak]

theorem keptOf_append (tracked : Option (List String))
    (l₁ l₂ : List (String × Position)) :
    keptOf tracked (l₁ ++ l₂) = keptOf tracked l₁ ++ keptOf tracked l₂ := by
  simp [keptOf]

theorem groupStep_assocFor (tracked : Option (List String))
    (pre : List (String × Position)) (p : String × Position) :
    groupStep tracked (assocFor tracked pre) p = assocFor tracked (pre ++ [p]) := by
  by_cases hskip : skipSymbol tracked p.2.symbol
  · have hkept : keptOf tracked (pre ++ [p]) = keptOf tracked pre := by
      rw [keptOf_append]
      simp [keptOf, hskip]
    simp [groupStep, hskip, assocFor, hkept]
  · have hskipf : skipSymbol tracked p.2.symbol = false := by
      simpa using hskip
    have hkept : keptOf tracked (pre ++ [p]) = keptOf tracked pre ++ [p] := by
      rw [keptOf_append]
      simp [keptOf, hskipf]
    rw [groupStep, if_neg (by simp [hskipf])]
    unfold assocFor
    rw [updateAssoc_map p.2.symbol (addToData p.1 p.2)
      (firstSeen ((keptOf tracked pre).map fun q => q.2.symbol))
      (fun s => specBucket s (keptOf tracked pre))
      (nodup_firstSeen _)
      (fun hnm => specBucket_not_mem (fun q hq hq' => hnm
        (mem_firstSeen.mpr (hq' ▸ List.mem_map_of_mem (fun r => r.2.symbol) hq))))]
    rw [hkept, List.map_append]
    simp only [List.map_cons, List.map_nil]
    rw [firstSeen_append_singleton]
    have hfun : ∀ s : String,
        (s, if s = p.2.symbol then addToData p.1 p.2 (specBucket s (keptOf tracked pre))
            else specBucket s (keptOf tracked pre))
          = (s, specBucket s (keptOf tracked pre ++ [p])) := by
      intro s
      rw [specBucket_append_one]
      by_cases h : s = p.2.symbol
      · rw [if_pos h, if_pos h.symm]
      · rw [if_neg h, if_neg (fun h' => h h'.symm)]
    rw [show (fun s => (s,
        if s = p.2.symbol then addToData p.1 p.2 (specBucket s (keptOf tracked pre))
        else specBucket s (keptOf tracked pre)))
      = (fun s => (s, specBucket s (keptOf tracked pre ++ [p]))) from funext hfun]
    by_cases hm : p.2.symbol ∈ (keptOf tracked pre).map fun q => q.2.symbol
    · rw [if_pos (mem_firstSeen.mpr hm), if_pos hm]
    · rw [if_neg (fun h => hm (mem_firstSeen.mp h)), if_neg hm]

theorem foldl_groupStep (tracked : Option (List String)) :
    ∀ l pre : List (String × Position),
      l.foldl (groupStep tracked) (assocFor tracked pre) = assocFor tracked (pre ++ l) := by
  intro l
  induction l with
  | nil => intro pre; simp
  | cons p l ih =>
    intro pre
    rw [List.foldl_cons, groupStep_assocFor, ih (pre ++ [p])]
    simp [List.append_assoc]

/-- The central structural description of the grouping loop: the
`symbol_data` dictionary has one bucket per kept symbol in first-seen
order, and each bucket collects exactly the kept positions of its symbol
(split on `side == "LONG"`), in iteration order. -/
theorem groupFlat_eq (tracked : Option (List String)) (l : List (String × Position)) :
    groupFlat tracked l = assocFor tracked l := by
  have h := foldl_groupStep tracked l []
  simpa [groupFlat] using h

/-! ### Lemmas about the stable sort -/

theorem insertByTotalDesc_perm (c : SymbolConsensus) (l : List SymbolConsensus) :
    List.Perm (insertByTotalDesc c l) (c :: l) := by
  induction l with
  | nil => exact List.Perm.refl _
  | cons d rest ih =>
    unfold insertByTotalDesc
    by_cases h : d.total_count ≤ c.total_count
    · rw [if_pos h]
    · rw [if_neg h]
      exact (ih.cons d).trans (List.Perm.swap c d rest)

theorem sortByTotalDesc_perm (l : List SymbolConsensus) :
    List.Perm (sortByTotalDesc l) l := by
  induction l with
  | nil => exact List.Perm.refl _
  | cons c rest ih => exact (insertByTotalDesc_perm c _).trans (ih.cons c)

theorem mem_sortByTotalDesc {x : SymbolConsensus} {l : List SymbolConsensus} :
    x ∈ sortByTotalDesc l ↔ x ∈ l :=
  (sortByTotalDesc_perm l).mem_iff

theorem pairwise_insertByTotalDesc (c : SymbolConsensus) (l : List SymbolConsensus)
    (h : l.Pairwise fun a b => b.total_count ≤ a.total_count) :
    (insertByTotalDesc c l).Pairwise fun a b => b.total_count ≤ a.total_count := by
  induction l with
  | nil => simp [insertByTotalDesc]
  | cons d rest ih =>
    unfold insertByTotalDesc
    rcases List.pairwise_cons.mp h with ⟨hd, hrest⟩
    by_cases hc : d.total_count ≤ c.total_count
    · rw [if_pos hc]
      refine List.pairwise_cons.mpr ⟨?_, h⟩
      intro x hx
      rcases List.mem_cons.mp hx with rfl | hx
      · exact hc
      · exact (hd x hx).trans hc
    · rw [if_neg hc]
      refine List.pairwise_cons.mpr ⟨?_, ih hrest⟩
      intro x hx
      rcases List.mem_cons.mp ((insertByTotalDesc_perm c rest).mem_iff.mp hx) with rfl | hx2
      · exact (not_le.mp hc).le
      · exact hd x hx2

theorem sortByTotalDesc_sorted (l : List SymbolConsensus) :
    (sortByTotalDesc l).Pairwise fun a b => b.total_count ≤ a.total_count := by
  induction l with
  | nil => simp [sortByTotalDesc]
  | cons c rest ih => exact pairwise_insertByTotalDesc c _ ih

theorem filter_insertByTotalDesc (c : SymbolConsensus) (l : List SymbolConsensus) (k : ℕ) :
    (insertByTotalDesc c l).filter (fun d => decide (d.total_count = k))
      = (c :: l).filter (fun d => decide (d.total_count = k)) := by
  induction l with
  | nil => rfl
  | cons d rest ih =>
    unfold insertByTotalDesc
    by_cases h : d.total_count ≤ c.total_count
    · rw [if_pos h]
    · rw [if_neg h]
      by_cases hck : c.total_count = k
      · have hdk : ¬ d.total_count = k := fun hdk =>
          h (le_of_eq (hdk.trans hck.symm))
        simp only [List.filter_cons, ih]
        simp [hck, hdk]
      · by_cases hdk : d.total_count = k
        · simp only [List.filter_cons, ih]
          simp [hck, hdk]
        · simp only [List.filter_cons, ih]
          simp [hck, hdk]

theorem filter_sortByTotalDesc (l : List SymbolConsensus) (k : ℕ) :
    (sortByTotalDesc l).filter (fun d => decide (d.total_count = k))
      = l.filter (fun d => decide (d.total_count = k)) := by
  induction l with
  | nil => rfl
  | cons c rest ih =>
    show (insertByTotalDesc c (sortByTotalDesc rest)).filter _ = _
    rw [filter_insertByTotalDesc]
    simp only [List.filter_cons, ih]

/-! ### Lemmas about `mkConsensus` -/

theorem mkConsensus_eq_some {m : ℚ} {s : String} {d : SymbolData} {c : SymbolConsensus}
    (h : mkConsensus m s d = some c) :
    d.longs.length + d.shorts.length ≠ 0 ∧
    c = { symbol := s
          long_count := d.longs.length
          short_count := d.shorts.length
          total_count := d.longs.length + d.shorts.length
          long_percent := ((d.longs.length : ℚ)
            / ((d.longs.length + d.shorts.length : ℕ) : ℚ)) * 100
          short_percent := ((d.shorts.length : ℚ)
            / ((d.longs.length + d.shorts.length : ℕ) : ℚ)) * 100
          avg_leverage_long := if d.long_leverage.isEmpty then 0
            else d.long_leverage.sum / (d.long_leverage.length : ℚ)
          avg_leverage_short := if d.short_leverage.isEmpty then 0
            else d.short_leverage.sum / (d.short_leverage.length : ℚ)
          total_long_pnl := d.long_pnl.sum
          total_short_pnl := d.short_pnl.sum
          signal := get_signal m
            (((d.longs.length : ℚ) / ((d.longs.length + d.shorts.length : ℕ) : ℚ)) * 100)
            (((d.shorts.length : ℚ) / ((d.longs.length + d.shorts.length : ℕ) : ℚ)) * 100) } := by
  simp only [mkConsensus] at h
  split at h
  · exact absurd h (by simp)
  · rename_i htot
    exact ⟨htot, (Option.some.inj h).symm⟩

theorem mkConsensus_of_ne_zero (m : ℚ) (s : String) (d : SymbolData)
    (h : d.longs.length + d.shorts.length ≠ 0) :
    ∃ c, mkConsensus m s d = some c ∧ c.symbol = s := by
  simp only [mkConsensus]
  rw [if_neg h]
  exact ⟨_, rfl, rfl⟩

theorem length_filter_side (l : List (String × Position)) :
    (l.filter fun p => decide (p.2.side = "LONG")).length
      + (l.filter fun p => decide (¬ p.2.side = "LONG")).length = l.length := by
  induction l with
  | nil => rfl
  | cons p l ih =>
    simp only [List.filter_cons, decide_not] at ih ⊢
    by_cases h : p.2.side = "LONG" <;> simp [h] <;> omega

theorem specBucket_total (s : String) (kept : List (String × Position)) :
    (specBucket s kept).longs.length + (specBucket s kept).shorts.length
      = (kept.filter fun p => decide (p.2.symbol = s)).length := by
  simp only [specBucket, List.length_map]
  exact length_filter_side _

theorem specBucket_total_ne_zero {s : String} {kept : List (String × Position)}
    (h : s ∈ kept.map fun p => p.2.symbol) :
    (specBucket s kept).longs.length + (specBucket s kept).shorts.length ≠ 0 := by
  rw [specBucket_total]
  rcases List.mem_map.mp h with ⟨p, hp, hps⟩
  have hmem : p ∈ kept.filter fun p => decide (p.2.symbol = s) :=
    List.mem_filter.mpr ⟨hp, by simp [hps]⟩
  intro h0
  rw [List.length_eq_zero] at h0
  simp [h0] at hmem

/-- The pre-sort consensus list is a `filterMap` over first-seen kept
symbols. -/
theorem preCons_eq (m : ℚ) (tracked : Option (List String))
    (positions : List (String × List Position)) :
    ((groupPositions tracked positions).filterMap fun sd => mkConsensus m sd.1 sd.2)
      = (firstSeen ((keptOf tracked (flatPositions positions)).map
            fun p => p.2.symbol)).filterMap
          fun s => mkConsensus m s (specBucket s (keptOf tracked (flatPositions positions))) := by
  unfold groupPositions
  rw [groupFlat_eq]
  unfold assocFor
  rw [List.filterMap_map]
  rfl

/-- Membership in the final consensus list. -/
theorem mem_calculate_consensus {m : ℚ} {traders : List Trader}
    {positions : List (String × List Position)} {tracked : Option (List String)}
    {c : SymbolConsensus} :
    c ∈ calculate_consensus m traders positions tracked ↔
      ∃ s ∈ firstSeen ((keptOf tracked (flatPositions positions)).map
          fun p => p.2.symbol),
        mkConsensus m s (specBucket s (keptOf tracked (flatPositions positions)))
          = some c := by
  unfold calculate_consensus
  rw [mem_sortByTotalDesc, preCons_eq]
  exact List.mem_filterMap

theorem map_symbol_filterMap (L : List String)
    (F : String → Option SymbolConsensus)
    (h : ∀ s ∈ L, ∃ c, F s = some c ∧ c.symbol = s) :
    ((L.filterMap F).map fun c => c.symbol) = L := by
  induction L with
  | nil => rfl
  | cons s L ih =>
    rcases h s (List.mem_cons_self s L) with ⟨c, hc, hsym⟩
    rw [List.filterMap_cons, hc, List.map_cons, hsym,
      ih fun t ht => h t (List.mem_cons_of_mem s ht)]

/-! ### Claim C1: the signal classifier -/

/-- C1: for every pair of percentages and every threshold `T`, the
classifier returns (first matching case wins, in the listed order):
`STRONG_BUY` if `long_percent ≥ 70` regardless of `T`; `BUY` if
`T ≤ long_percent < 70`; `STRONG_SELL` if `short_percent ≥ 70`; `SELL` if
`T ≤ short_percent < 70`; and `NEUTRAL` otherwise. -/
theorem classifier_threshold_cases (T lp sp : ℚ) :
    (70 ≤ lp → get_signal T lp sp = "STRONG_BUY") ∧
    (lp < 70 → T ≤ lp → get_signal T lp sp = "BUY") ∧
    (lp < 70 → lp < T → 70 ≤ sp → get_signal T lp sp = "STRONG_SELL") ∧
    (lp < 70 → lp < T → sp < 70 → T ≤ sp → get_signal T lp sp = "SELL") ∧
    (lp < 70 → lp < T → sp < 70 → sp < T → get_signal T lp sp = "NEUTRAL") := by
  refine ⟨fun h1 => ?_, fun h1 h2 => ?_, fun h1 h2 h3 => ?_,
    fun h1 h2 h3 h4 => ?_, fun h1 h2 h3 h4 => ?_⟩ <;>
    · unfold get_signal
      split_ifs <;> first | rfl | (exfalso; linarith)

/-- Witness for C1: each of the five cases at a concrete input. -/
theorem classifier_threshold_cases_witness :
    get_signal 60 75 25 = "STRONG_BUY" ∧ get_signal 60 65 35 = "BUY" ∧
    get_signal 80 25 75 = "STRONG_SELL" ∧ get_signal 60 35 65 = "SELL" ∧
    get_signal 60 50 50 = "NEUTRAL" :=
  ⟨(classifier_threshold_cases 60 75 25).1 (by norm_num),
   (classifier_threshold_cases 60 65 35).2.1 (by norm_num) (by norm_num),
   (classifier_threshold_cases 80 25 75).2.2.1 (by norm_num) (by norm_num) (by norm_num),
   (classifier_threshold_cases 60 35 65).2.2.2.1 (by norm_num) (by norm_num) (by norm_num)
     (by norm_num),
   (classifier_threshold_cases 60 50 50).2.2.2.2 (by norm_num) (by norm_num) (by norm_num)
     (by norm_num)⟩

/-! ### Claim C3: max_drawdown is the largest single-loss magnitude -/

/-- C3: for every non-empty list of trades, the computed `max_drawdown`
equals the largest absolute PnL magnitude among trades with `pnl ≤ 0`
(and `0` when no trade has `pnl ≤ 0`, since the fold starts at `0`). -/
theorem max_drawdown_eq_largest_loss (trades : List Trade) (h : trades ≠ []) :
    (calculate_metrics trades).max_drawdown = largestLossMagnitude trades := by
  unfold calculate_metrics
  rw [if_neg (by simpa using h)]
  exact maxdd_foldl trades 0 0

section RatEval

attribute [local semireducible] Rat.add Rat.mul Rat.inv Rat.sub

/-- Witness for C3 at the spec's example PnLs `[+10, −5, −8, +3]`:
`max_drawdown = 8`. -/
theorem max_drawdown_eq_largest_loss_witness :
    [tradeOfPnl 10, tradeOfPnl (-5), tradeOfPnl (-8), tradeOfPnl 3] ≠ ([] : List Trade) ∧
    (calculate_metrics
      [tradeOfPnl 10, tradeOfPnl (-5), tradeOfPnl (-8), tradeOfPnl 3]).max_drawdown = 8 :=
  ⟨by decide, by
    rw [max_drawdown_eq_largest_loss _ (by decide)]
    decide⟩

end RatEval

/-! ### Claim C6: winner/loser partition and win rate -/

/-- C6: for every non-empty trade list the winners are exactly the trades
with `pnl > 0`, the losers exactly those with `pnl ≤ 0` (so a zero-PnL
trade is a loser, not a winner), and
`win_rate = |winners| / |trades| × 100`. -/
theorem winners_losers_partition (trades : List Trade) (h : trades ≠ []) :
    (calculate_metrics trades).winning_trades
        = (trades.filter fun t => decide (0 < t.pnl)).length ∧
    (calculate_metrics trades).losing_trades
        = (trades.filter fun t => decide (t.pnl ≤ 0)).length ∧
    (calculate_metrics trades).win_rate
        = (((trades.filter fun t => decide (0 < t.pnl)).length : ℚ)
            / (trades.length : ℚ)) * 100 ∧
    (∀ t ∈ trades, t.pnl = 0 →
      t ∈ trades.filter (fun t => decide (t.pnl ≤ 0)) ∧
      t ∉ trades.filter (fun t => decide (0 < t.pnl))) := by
  have hne : trades.isEmpty = false := by simpa using h
  unfold calculate_metrics
  rw [if_neg (by simp [hne])]
  refine ⟨rfl, rfl, ?_, ?_⟩
  · simp only [hne, Bool.false_eq_true, if_false]
  · intro t ht h0
    constructor
    · simp [List.mem_filter, ht, h0]
    · simp [List.mem_filter, h0]

/-! ### Claim C9: empty input and guarded averages -/

/-- C9: an empty trade list yields the all-zero `BacktestResult` with an
empty trade list, and empty winner (resp. loser) sets yield an average
profit (resp. loss) of `0` rather than a division error. -/
theorem metrics_empty_and_guarded_averages :
    calculate_metrics [] = ⟨0, 0, 0, 0, 0, 0, 0, 0, []⟩ ∧
    (∀ trades : List Trade, trades.filter (fun t => decide (0 < t.pnl)) = [] →
      (calculate_metrics trades).avg_profit = 0) ∧
    (∀ trades : List Trade, trades.filter (fun t => decide (t.pnl ≤ 0)) = [] →
      (calculate_metrics trades).avg_loss = 0) := by
  refine ⟨rfl, ?_, ?_⟩
  · intro trades hw
    by_cases h : trades = []
    · subst h; rfl
    · unfold calculate_metrics
      rw [if_neg (by simpa using h)]
      simp [hw]
  · intro trades hl
    by_cases h : trades = []
    · subst h; rfl
    · unfold calculate_metrics
      rw [if_neg (by simpa using h)]
      simp [hl]

section RatEvalMetrics

attribute [local semireducible] Rat.add Rat.mul Rat.inv Rat.sub

/-- Witness for C6 on trades with PnLs `[0, 2]`: the zero-PnL trade is a
loser, winners count 1, losers count 1, win rate 50. -/
theorem winners_losers_partition_witness :
    (calculate_metrics [tradeOfPnl 0, tradeOfPnl 2]).winning_trades = 1 ∧
    (calculate_metrics [tradeOfPnl 0, tradeOfPnl 2]).losing_trades = 1 ∧
    (calculate_metrics [tradeOfPnl 0, tradeOfPnl 2]).win_rate = 50 ∧
    tradeOfPnl 0 ∉ [tradeOfPnl 0, tradeOfPnl 2].filter (fun t => decide (0 < t.pnl)) := by
  have h := winners_losers_partition [tradeOfPnl 0, tradeOfPnl 2] (by decide)
  exact ⟨h.1.trans (by decide), h.2.1.trans (by decide), h.2.2.1.trans (by decide),
    ((h.2.2.2 (tradeOfPnl 0) (by decide) (by decide)).2)⟩

/-- Witness for C9: a single losing trade has `avg_profit = 0`, a single
winning trade has `avg_loss = 0`. -/
theorem metrics_empty_and_guarded_averages_witness :
    (calculate_metrics [tradeOfPnl (-1)]).avg_profit = 0 ∧
    (calculate_metrics [tradeOfPnl 1]).avg_loss = 0 :=
  ⟨metrics_empty_and_guarded_averages.2.1 [tradeOfPnl (-1)] (by decide),
   metrics_empty_and_guarded_averages.2.2 [tradeOfPnl 1] (by decide)⟩

end RatEvalMetrics

/-! ### Claim C2: per-record invariants of the consensus output -/

theorem percent_sum (L S : ℕ) (h : L + S ≠ 0) :
    ((L : ℚ) / ((L + S : ℕ) : ℚ)) * 100 + ((S : ℚ) / ((L + S : ℕ) : ℚ)) * 100 = 100 := by
  have hQ : ((L : ℚ) + (S : ℚ)) ≠ 0 := by
    have h2 : ((L + S : ℕ) : ℚ) ≠ 0 := Nat.cast_ne_zero.mpr h
    push_cast at h2
    exact h2
  push_cast
  field_simp
  ring

/-- C2: every record of the consensus output satisfies
`long_count + short_count = total_count`,
`long_percent + short_percent = 100` (exactly, in `ℚ`), and
`total_count ≠ 0`. -/
theorem consensus_count_percent_invariants (m : ℚ) (traders : List Trader)
    (positions : List (String × List Position)) (tracked : Option (List String)) :
    ∀ c ∈ calculate_consensus m traders positions tracked,
      c.long_count + c.short_count = c.total_count ∧
      c.long_percent + c.short_percent = 100 ∧
      c.total_count ≠ 0 := by
  intro c hc
  rcases mem_calculate_consensus.mp hc with ⟨s, hs, hsome⟩
  rcases mkConsensus_eq_some hsome with ⟨htot, rfl⟩
  exact ⟨rfl, percent_sum _ _ htot, htot⟩

/-! ### Claim C7: output ordering and stability -/

/-- C7: the output list is sorted by `total_count` descending; for every
value `k` of `total_count` the records with that count appear in the same
order as in the pre-sort list (stability); and the pre-sort list is in
first-seen symbol order. -/
theorem consensus_output_sorted_stable (m : ℚ) (traders : List Trader)
    (positions : List (String × List Position)) (tracked : Option (List String)) :
    (calculate_consensus m traders positions tracked).Pairwise
        (fun a b => b.total_count ≤ a.total_count) ∧
    (∀ k : ℕ,
      (calculate_consensus m traders positions tracked).filter
          (fun c => decide (c.total_count = k))
        = ((groupPositions tracked positions).filterMap
            fun sd => mkConsensus m sd.1 sd.2).filter
          (fun c => decide (c.total_count = k))) ∧
    (((groupPositions tracked positions).filterMap
        fun sd => mkConsensus m sd.1 sd.2).map fun c => c.symbol)
      = firstSeen ((keptOf tracked (flatPositions positions)).map
          fun p => p.2.symbol) := by
  refine ⟨sortByTotalDesc_sorted _, fun k => filter_sortByTotalDesc _ k, ?_⟩
  rw [preCons_eq]
  apply map_symbol_filterMap
  intro s hs
  exact mkConsensus_of_ne_zero m s _ (specBucket_total_ne_zero (mem_firstSeen.mp hs))

section RatEvalConsensus

attribute [local semireducible] Rat.add Rat.mul Rat.inv Rat.sub

/-- Witness for C2 at a concrete snapshot: the BTC record (1 LONG,
1 SHORT) satisfies the invariants. -/
theorem consensus_count_percent_invariants_witness :
    cBTC ∈ calculate_consensus 60 [] wPositions none ∧
    (cBTC.long_count + cBTC.short_count = cBTC.total_count ∧
     cBTC.long_percent + cBTC.short_percent = 100 ∧
     cBTC.total_count ≠ 0) :=
  ⟨by decide,
   consensus_count_percent_invariants 60 [] wPositions none cBTC (by decide)⟩

end RatEvalConsensus

/-! ### Claim C8: leverage averages and PnL sums -/

/-- C8: in every output record, each side's average leverage is the
arithmetic mean of that side's leverage values — `0` when the side has no
entries — and each side's PnL is the plain sum of the input positions'
recorded `pnl` values. -/
theorem consensus_leverage_pnl_aggregates (m : ℚ) (traders : List Trader)
    (positions : List (String × List Position)) (tracked : Option (List String)) :
    ∀ c ∈ calculate_consensus m traders positions tracked,
      (c.avg_leverage_long =
        if (specBucket c.symbol (keptOf tracked (flatPositions positions))).long_leverage = []
        then 0
        else avgList
          (specBucket c.symbol (keptOf tracked (flatPositions positions))).long_leverage) ∧
      (c.avg_leverage_short =
        if (specBucket c.symbol (keptOf tracked (flatPositions positions))).short_leverage = []
        then 0
        else avgList
          (specBucket c.symbol (keptOf tracked (flatPositions positions))).short_leverage) ∧
      c.total_long_pnl
        = (specBucket c.symbol (keptOf tracked (flatPositions positions))).long_pnl.sum ∧
      c.total_short_pnl
        = (specBucket c.symbol (keptOf tracked (flatPositions positions))).short_pnl.sum := by
  intro c hc
  rcases mem_calculate_consensus.mp hc with ⟨s, hs, hsome⟩
  rcases mkConsensus_eq_some hsome with ⟨htot, rfl⟩
  refine ⟨?_, ?_, rfl, rfl⟩ <;> simp [avgList, List.isEmpty_iff]

/-! ### Claim C10: any side other than exactly "LONG" is counted short -/

/-- C10: in every output record, `long_count` counts exactly the kept
positions of that symbol whose side is the exact string `"LONG"` and
`short_count` counts all the others (misspelled or unknown sides
included), and every kept position's symbol has an output record — no
position is rejected for its side value. -/
theorem non_long_side_counts_short (m : ℚ) (traders : List Trader)
    (positions : List (String × List Position)) (tracked : Option (List String)) :
    (∀ c ∈ calculate_consensus m traders positions tracked,
      c.long_count = (((keptOf tracked (flatPositions positions)).filter
          fun p => decide (p.2.symbol = c.symbol)).filter
          fun p => decide (p.2.side = "LONG")).length ∧
      c.short_count = (((keptOf tracked (flatPositions positions)).filter
          fun p => decide (p.2.symbol = c.symbol)).filter
          fun p => decide (¬ p.2.side = "LONG")).length) ∧
    (∀ p ∈ keptOf tracked (flatPositions positions),
      ∃ c ∈ calculate_consensus m traders positions tracked,
        c.symbol = p.2.symbol) := by
  constructor
  · intro c hc
    rcases mem_calculate_consensus.mp hc with ⟨s, hs, hsome⟩
    rcases mkConsensus_eq_some hsome with ⟨htot, rfl⟩
    exact ⟨by simp [specBucket], by simp [specBucket]⟩
  · intro p hp
    have hsym : p.2.symbol ∈ (keptOf tracked (flatPositions positions)).map
        fun q => q.2.symbol := List.mem_map_of_mem _ hp
    rcases mkConsensus_of_ne_zero m p.2.symbol
        (specBucket p.2.symbol (keptOf tracked (flatPositions positions)))
        (specBucket_total_ne_zero hsym) with ⟨c, hc, hcs⟩
    exact ⟨c, mem_calculate_consensus.mpr ⟨p.2.symbol, mem_firstSeen.mpr hsym, hc⟩, hcs⟩

section RatEvalSides

attribute [local semireducible] Rat.add Rat.mul Rat.inv Rat.sub

/-- Witness for C8: the BTC record's aggregates at a concrete snapshot
(LONG leverage 2, SHORT leverage 4, PnLs 5 and −3). -/
theorem consensus_leverage_pnl_aggregates_witness :
    cBTC ∈ calculate_consensus 60 [] wPositions none ∧
    cBTC.avg_leverage_long = 2 ∧ cBTC.avg_leverage_short = 4 ∧
    cBTC.total_long_pnl = 5 ∧ cBTC.total_short_pnl = -3 := by
  have h := consensus_leverage_pnl_aggregates 60 [] wPositions none cBTC (by decide)
  exact ⟨by decide, h.1.trans (by decide), h.2.1.trans (by decide),
    h.2.2.1.trans (by decide), h.2.2.2.trans (by decide)⟩

/-- Witness for C10: the position with side `"long"` (lowercase) is
counted on ETH's short side. -/
theorem non_long_side_counts_short_witness :
    cETH ∈ calculate_consensus 60 [] wPositions none ∧
    cETH.long_count = 0 ∧ cETH.short_count = 1 := by
  have h := (non_long_side_counts_short 60 [] wPositions none).1 cETH (by decide)
  exact ⟨by decide, h.1.trans (by decide), h.2.trans (by decide)⟩

end RatEvalSides

/-! ### Claim C5: the allowlist -/

theorem keptOf_none (l : List (String × Position)) : keptOf none l = l :=
  List.filter_eq_self.mpr fun p _ => by simp [skipSymbol]

theorem keptOf_some_nil (l : List (String × Position)) : keptOf (some []) l = l :=
  List.filter_eq_self.mpr fun p _ => by simp [skipSymbol]

theorem keptOf_some_ne_nil (allow : List String) (h : allow ≠ [])
    (l : List (String × Position)) :
    keptOf (some allow) l = l.filter fun p => allow.contains p.2.symbol := by
  cases allow with
  | nil => exact absurd rfl h
  | cons a as =>
    unfold keptOf
    exact List.filter_congr fun p _ => by simp [skipSymbol]

theorem flatPositions_restrict (allow : List String)
    (positions : List (String × List Position)) :
    flatPositions (restrictPositions allow positions)
      = (flatPositions positions).filter fun p => allow.contains p.2.symbol := by
  induction positions with
  | nil => rfl
  | cons tp rest ih =>
    simp only [flatPositions, restrictPositions, List.map_cons, List.flatMap_cons,
      List.filter_append] at ih ⊢
    rw [ih, List.filter_map]
    congr 1

/-- C5 counterexample: the allowlist is given as the (empty) list `[]`;
the position's symbol `"BTCUSDT"` is not a member of it, yet the position
still contributes a full aggregate — the output is not empty, contrary to
the claim that such a position contributes to no per-symbol aggregate. -/
theorem allowlist_empty_cex :
    "BTCUSDT" ∉ ([] : List String) ∧
    (calculate_consensus 60 [] cexPositions (some [])).map (fun c => c.symbol)
      = ["BTCUSDT"] ∧
    (calculate_consensus 60 [] cexPositions (some [])).map (fun c => c.total_count)
      = [1] :=
  ⟨by simp, by decide, by decide⟩

/-- C5 (amended): a position whose symbol is not a member of a given
NON-EMPTY allowlist contributes to no per-symbol aggregate — the output
equals that of the input restricted to allowlist members — while an absent
or empty allowlist considers all symbols (Python truthiness treats the
empty list like `None`). -/
theorem allowlist_filtering_amended (m : ℚ) (traders : List Trader)
    (positions : List (String × List Position)) (allow : List String)
    (h : allow ≠ []) :
    calculate_consensus m traders positions (some allow)
      = calculate_consensus m traders (restrictPositions allow positions) none ∧
    calculate_consensus m traders positions (some [])
      = calculate_consensus m traders positions none := by
  constructor
  · unfold calculate_consensus
    rw [preCons_eq, preCons_eq, keptOf_some_ne_nil allow h, keptOf_none,
      flatPositions_restrict]
  · unfold calculate_consensus
    rw [preCons_eq, preCons_eq, keptOf_some_nil, keptOf_none]

/-- Witness for the amended C5 at a concrete allowlist. -/
theorem allowlist_filtering_amended_witness :
    calculate_consensus 60 [] wPositions (some ["BTCUSDT"])
      = calculate_consensus 60 [] (restrictPositions ["BTCUSDT"] wPositions) none :=
  (allowlist_filtering_amended 60 [] wPositions ["BTCUSDT"] (by decide)).1

/-! ### Claim C4: backtest trade emission -/

theorem mkTrade_symbol {positions : List (String × List Position)} {date : ℤ}
    {cons : SymbolConsensus} {t : Trade}
    (h : mkTrade positions date cons = some t) : t.symbol = cons.symbol := by
  simp only [mkTrade] at h
  split at h
  · exact absurd h (by simp)
  · split at h
    · cases Option.some.inj h
      rfl
    · split at h
      · cases Option.some.inj h
        rfl
      · exact absurd h (by simp)

theorem filterMap_mkTrade_filter (positions : List (String × List Position)) (date : ℤ)
    (cl : List SymbolConsensus) (s : String) :
    ((cl.filterMap (mkTrade positions date)).filter fun t => decide (t.symbol = s))
      = (cl.filter fun c => decide (c.symbol = s)).filterMap (mkTrade positions date) := by
  induction cl with
  | nil => rfl
  | cons c cl ih =>
    cases hmk : mkTrade positions date c with
    | none =>
      by_cases hs : c.symbol = s
      · simp [List.filterMap_cons, List.filter_cons, hmk, hs, ih]
      · simp [List.filterMap_cons, List.filter_cons, hmk, hs, ih]
    | some t =>
      have hts := mkTrade_symbol hmk
      by_cases hs : c.symbol = s
      · simp [List.filterMap_cons, List.filter_cons, hmk, hts, hs, ih]
      · simp [List.filterMap_cons, List.filter_cons, hmk, hts, hs, ih]

theorem filter_eq_singleton_of_nodup {cl : List SymbolConsensus} {c : SymbolConsensus}
    (hnd : (cl.map fun d => d.symbol).Nodup) (hc : c ∈ cl) :
    cl.filter (fun d => decide (d.symbol = c.symbol)) = [c] := by
  induction cl with
  | nil => cases hc
  | cons d cl ih =>
    rw [List.map_cons, List.nodup_cons] at hnd
    rcases List.mem_cons.mp hc with rfl | hc2
    · rw [List.filter_cons_of_pos (by simp)]
      have hnil : cl.filter (fun e => decide (e.symbol = c.symbol)) = [] :=
        List.filter_eq_nil_iff.mpr fun e he => by
          simp only [decide_eq_true_eq]
          exact fun heq => hnd.1 (heq ▸ List.mem_map_of_mem (fun x => x.symbol) he)
      rw [hnil]
    · have hds : ¬ (d.symbol = c.symbol) := fun heq =>
        hnd.1 (heq ▸ List.mem_map_of_mem (fun x => x.symbol) hc2)
      rw [List.filter_cons_of_neg (by simp [hds]), ih hnd.2 hc2]

theorem nodup_symbols_calculate_consensus (m : ℚ) (traders : List Trader)
    (positions : List (String × List Position)) (tracked : Option (List String)) :
    ((calculate_consensus m traders positions tracked).map fun c => c.symbol).Nodup := by
  have hperm := sortByTotalDesc_perm
    ((groupPositions tracked positions).filterMap fun sd => mkConsensus m sd.1 sd.2)
  have hmap := hperm.map fun c => c.symbol
  have hnd : (((groupPositions tracked positions).filterMap
      fun sd => mkConsensus m sd.1 sd.2).map fun c => c.symbol).Nodup := by
    rw [preCons_eq, map_symbol_filterMap _ _ fun s hs =>
      mkConsensus_of_ne_zero m s _ (specBucket_total_ne_zero (mem_firstSeen.mp hs))]
    exact nodup_firstSeen _
  exact hmap.nodup_iff.mpr hnd

theorem symbolPositions_ne_nil_of_mem {m : ℚ} {traders : List Trader}
    {positions : List (String × List Position)} {cons : SymbolConsensus}
    (hc : cons ∈ calculate_consensus m traders positions none) :
    symbolPositions positions cons.symbol ≠ [] := by
  rcases mem_calculate_consensus.mp hc with ⟨s, hs, hsome⟩
  have hsym : cons.symbol = s := by
    rcases mkConsensus_eq_some hsome with ⟨_, rfl⟩
    rfl
  have hmem : s ∈ (keptOf none (flatPositions positions)).map fun p => p.2.symbol :=
    mem_firstSeen.mp hs
  rw [keptOf_none] at hmem
  rcases List.mem_map.mp hmem with ⟨p, hp, hps⟩
  intro hnil
  have hin : p.2 ∈ symbolPositions positions cons.symbol :=
    List.mem_filterMap.mpr ⟨p, hp, by rw [hsym, if_pos hps]⟩
  rw [hnil] at hin
  cases hin

theorem mkTrade_buy (positions : List (String × List Position)) (date : ℤ)
    {cons : SymbolConsensus}
    (hne : (symbolPositions positions cons.symbol).isEmpty = false)
    (hb : cons.signal = "STRONG_BUY" ∨ cons.signal = "BUY") :
    mkTrade positions date cons
      = some (specLongTrade (symbolPositions positions cons.symbol) date
          cons.symbol cons.signal) := by
  simp only [mkTrade]
  rw [if_neg (by simp [hne]), if_pos hb]
  congr 1
  simp [specLongTrade, avgList, List.length_map]

theorem mkTrade_sell (positions : List (String × List Position)) (date : ℤ)
    {cons : SymbolConsensus}
    (hne : (symbolPositions positions cons.symbol).isEmpty = false)
    (hs : cons.signal = "STRONG_SELL" ∨ cons.signal = "SELL")
    (hnb : ¬ (cons.signal = "STRONG_BUY" ∨ cons.signal = "BUY")) :
    mkTrade positions date cons
      = some (specShortTrade (symbolPositions positions cons.symbol) date
          cons.symbol cons.signal) := by
  simp only [mkTrade]
  rw [if_neg (by simp [hne]), if_neg hnb, if_pos hs]
  congr 1
  simp [specShortTrade, avgList, List.length_map]

theorem mkTrade_not_actionable (positions : List (String × List Position)) (date : ℤ)
    (cons : SymbolConsensus)
    (h1 : ¬ (cons.signal = "STRONG_BUY" ∨ cons.signal = "BUY"))
    (h2 : ¬ (cons.signal = "STRONG_SELL" ∨ cons.signal = "SELL")) :
    mkTrade positions date cons = none := by
  simp only [mkTrade]
  split <;> rfl

/-- C4: in a backtest scenario, every symbol with an actionable consensus
signal emits exactly one trade; its entry/exit prices are the arithmetic
means over ALL of that symbol's positions regardless of side; its side is
LONG for BUY-family signals with `pnl = avg_exit − avg_entry` and SHORT
for SELL-family signals with `pnl = avg_entry − avg_exit`, and
`pnl_percent = pnl / avg_entry × 100` in both cases; a NEUTRAL symbol
emits no trade. -/
theorem backtest_one_trade_per_actionable (m : ℚ) (scen : TestScenario) :
    (∀ cons ∈ calculate_consensus m (scen.traders.map convertTrader)
        (convertPositions scen) none,
      actionable cons.signal →
      ∃ t,
        (run_scenario m scen).filter (fun tr => decide (tr.symbol = cons.symbol))
            = [t] ∧
        t.entry_price = avgList ((symbolPositions (convertPositions scen)
          cons.symbol).map Position.entry_price) ∧
        t.exit_price = avgList ((symbolPositions (convertPositions scen)
          cons.symbol).map Position.mark_price) ∧
        t.pnl_percent = (t.pnl / t.entry_price) * 100 ∧
        (cons.signal = "STRONG_BUY" ∨ cons.signal = "BUY" →
          t.side = "LONG" ∧ t.pnl = t.exit_price - t.entry_price) ∧
        (cons.signal = "STRONG_SELL" ∨ cons.signal = "SELL" →
          t.side = "SHORT" ∧ t.pnl = t.entry_price - t.exit_price)) ∧
    (∀ cons ∈ calculate_consensus m (scen.traders.map convertTrader)
        (convertPositions scen) none,
      cons.signal = "NEUTRAL" →
      (run_scenario m scen).filter (fun tr => decide (tr.symbol = cons.symbol))
        = []) := by
  have hnodup := nodup_symbols_calculate_consensus m (scen.traders.map convertTrader)
    (convertPositions scen) none
  have hrun : run_scenario m scen
      = (calculate_consensus m (scen.traders.map convertTrader)
          (convertPositions scen) none).filterMap
        (mkTrade (convertPositions scen) scen.date) := rfl
  constructor
  · intro cons hc hact
    have hne := symbolPositions_ne_nil_of_mem hc
    have hnef : (symbolPositions (convertPositions scen) cons.symbol).isEmpty = false := by
      simpa using hne
    have hfilter : (run_scenario m scen).filter
          (fun tr => decide (tr.symbol = cons.symbol))
        = [cons].filterMap (mkTrade (convertPositions scen) scen.date) := by
      rw [hrun, filterMap_mkTrade_filter, filter_eq_singleton_of_nodup hnodup hc]
    have hbs : (cons.signal = "STRONG_BUY" ∨ cons.signal = "BUY")
        ∨ (cons.signal = "STRONG_SELL" ∨ cons.signal = "SELL") := by
      rcases hact with h | h | h | h
      · exact Or.inl (Or.inl h)
      · exact Or.inl (Or.inr h)
      · exact Or.inr (Or.inl h)
      · exact Or.inr (Or.inr h)
    rcases hbs with hb | hsell
    · have hmk := mkTrade_buy (convertPositions scen) scen.date hnef hb
      refine ⟨specLongTrade (symbolPositions (convertPositions scen) cons.symbol)
          scen.date cons.symbol cons.signal,
        ?_, rfl, rfl, rfl, fun _ => ⟨rfl, rfl⟩, fun hs => ?_⟩
      · rw [hfilter]
        simp [List.filterMap_cons, hmk]
      · exfalso
        rcases hb with hb | hb <;> rcases hs with hs | hs <;>
          rw [hb] at hs <;> exact absurd hs (by decide)
    · have hnb : ¬ (cons.signal = "STRONG_BUY" ∨ cons.signal = "BUY") := by
        rcases hsell with hs | hs <;>
          · rw [hs]
            decide
      have hmk := mkTrade_sell (convertPositions scen) scen.date hnef hsell hnb
      refine ⟨specShortTrade (symbolPositions (convertPositions scen) cons.symbol)
          scen.date cons.symbol cons.signal,
        ?_, rfl, rfl, rfl, fun hb => absurd hb hnb, fun _ => ⟨rfl, rfl⟩⟩
      rw [hfilter]
      simp [List.filterMap_cons, hmk]
  · intro cons hc hneu
    have hfilter : (run_scenario m scen).filter
          (fun tr => decide (tr.symbol = cons.symbol))
        = [cons].filterMap (mkTrade (convertPositions scen) scen.date) := by
      rw [hrun, filterMap_mkTrade_filter, filter_eq_singleton_of_nodup hnodup hc]
    have hmk := mkTrade_not_actionable (convertPositions scen) scen.date cons
      (by rw [hneu]; decide) (by rw [hneu]; decide)
    rw [hfilter]
    simp [List.filterMap_cons, hmk]

section RatEvalBacktest

attribute [local semireducible] Rat.add Rat.mul Rat.inv Rat.sub

/-- Witness for C4: the one-trader STRONG_BUY scenario emits exactly one
LONG trade on BTC. -/
theorem backtest_one_trade_per_actionable_witness :
    cW ∈ calculate_consensus 60 (wScen.traders.map convertTrader)
        (convertPositions wScen) none ∧
    actionable cW.signal ∧
    ∃ t,
      (run_scenario 60 wScen).filter (fun tr => decide (tr.symbol = cW.symbol))
          = [t] ∧
      t.entry_price = avgList ((symbolPositions (convertPositions wScen)
        cW.symbol).map Position.entry_price) ∧
      t.exit_price = avgList ((symbolPositions (convertPositions wScen)
        cW.symbol).map Position.mark_price) ∧
      t.pnl_percent = (t.pnl / t.entry_price) * 100 ∧
      (cW.signal = "STRONG_BUY" ∨ cW.signal = "BUY" →
        t.side = "LONG" ∧ t.pnl = t.exit_price - t.entry_price) ∧
      (cW.signal = "STRONG_SELL" ∨ cW.signal = "SELL" →
        t.side = "SHORT" ∧ t.pnl = t.entry_price - t.exit_price) :=
  ⟨by decide, by unfold actionable; decide,
   (backtest_one_trade_per_actionable 60 wScen).1 cW (by decide)
     (by unfold actionable; decide)⟩

end RatEvalBacktest
end BinanceConsensus
